import Mathlib

/-!
Shallow embedding of `emblem_exporter.py` (a GIO wrapper that exports,
applies, clears and purges Caja/Nautilus file-manager metadata) together
with proofs about its scan policy engine, snapshot codec, apply engine,
path crawler and CLI dispatch.

The metadata backend (`gio`) is modelled as an oracle `ok : GioCall → Bool`
deciding whether a given set-operation succeeds, and the filesystem as
oracles (`isDir`, `isFile`, ...) or an explicit tree (`FSTree`).  A parsed
per-item record is the list of its `metadata::<field>: <value>` lines as
`(field, raw value)` string pairs; the textual splitting of a raw record
line is performed upstream of the functions modelled here.
-/

set_option maxHeartbeats 1000000

namespace EmblemExporter

/-- A metadata value as it appears in the in-memory dictionary and in the
JSON snapshot: either a scalar string, or a list of emblem tags. -/
inductive MetaValue where
  | str : String → MetaValue
  | list : List String → MetaValue
deriving DecidableEq

/-- Python slice `s[1:-1]` (drop the first and the last character),
used on the raw bracketed emblems value at line 135. -/
def pySlice11 (s : String) : String := String.mk ((s.data.drop 1).dropLast)

/-- Python `str.split(', ')` on the character level: greedy left-to-right
scan for the two-character separator, never dropping empty parts. -/
def splitCS : List Char → List (List Char)
  | [] => [[]]
  | ',' :: ' ' :: rest => [] :: splitCS rest
  | c :: rest =>
    match splitCS rest with
    | [] => [[c]]
    | t :: ts => (c :: t) :: ts

/-- Python `str.split(', ')` as used at line 135. -/
def splitCommaSpace (s : String) : List String := (splitCS s.data).map String.mk

/-- Python `str.upper()` (ASCII, as relevant for the `Y`/`N` prompt). -/
def pyUpper (s : String) : String := String.mk (s.data.map Char.toUpper)

/-- Lines 135-140 of `scan_metadata`: the raw emblems value is stripped of
its brackets and split on `", "`; when the split yields a single empty
string the value collapses to the empty list. -/
def parseEmblems (raw : String) : List String :=
  let v := splitCommaSpace (pySlice11 raw)
  if v.length = 1 ∧ v.getD 0 "" = "" then [] else v

/-- Python `value == ''` on a value that may be a string or a list
(a list never equals the empty string in Python). -/
def isEmptyStr : MetaValue → Bool
  | MetaValue.str s => s == ""
  | MetaValue.list _ => false

/-- Python `len(value)` on a string-or-list value. -/
def pyLen : MetaValue → Nat
  | MetaValue.str s => s.length
  | MetaValue.list xs => xs.length

section Dict

variable {α : Type}

/-- First-match association-list lookup, the Python `dict[k]` /
`k in dict` pair for the insertion-ordered dicts built by the script. -/
def lookupKey (k : String) : List (String × α) → Option α
  | [] => none
  | kv :: rest => if k = kv.1 then some kv.2 else lookupKey k rest

/-- Python `dict.update({k: v})`: replace the value in place when the key
is present, append the pair otherwise. -/
def dictUpdate (d : List (String × α)) (k : String) (v : α) : List (String × α) :=
  if (lookupKey k d).isSome = true then
    d.map (fun kv => if kv.1 = k then (k, v) else kv)
  else d ++ [(k, v)]

end Dict

/-- One field map, `metadata_dictionary` in the source. -/
abbrev FieldMap := List (String × MetaValue)

/-- The export dictionary `json_data`: path to field map. -/
abbrev Snapshot := List (String × FieldMap)

/-- Lines 131-148 of `scan_metadata` (export mode, `clear` falsy): process
one `(field, raw value)` metadata line against the recognized-field list
`types` (`METADATA_TYPES`), updating the item's field map `d`.  An emblems
value is normalized by `parseEmblems`; with `setonly` an empty value is
skipped; a blank annotation value is always skipped. -/
def exportFieldStep (types : List String) (setonly : Bool)
    (d : FieldMap) (field raw : String) : FieldMap :=
  if field ∈ types then
    let mv : MetaValue :=
      if field = "emblems" then MetaValue.list (parseEmblems raw) else MetaValue.str raw
    if setonly = true ∧ ((field ≠ "annotation" ∧ isEmptyStr mv = true) ∨
        (field = "emblems" ∧ pyLen mv = 0)) then
      d
    else
      if ¬ (field = "annotation" ∧ isEmptyStr mv = true) then dictUpdate d field mv
      else d
  else d

/-- The field map accumulated for one item in export mode. -/
def exportItem (types : List String) (setonly : Bool)
    (lines : List (String × String)) : FieldMap :=
  lines.foldl (fun d l => exportFieldStep types setonly d l.1 l.2) []

/-- Lines 205-209: after an item's lines are processed in export mode, its
field map is added to `json_data` only when non-empty. -/
def exportStep (types : List String) (setonly : Bool) (jd : Snapshot)
    (r : String × List (String × String)) : Snapshot :=
  let md := exportItem types setonly r.2
  if 0 < md.length then dictUpdate jd r.1 md else jd

/-- A full export-mode scan over a list of parsed item records
`(item path, metadata lines)`. -/
def scanExportData (types : List String) (setonly : Bool)
    (records : List (String × List (String × String))) : Snapshot :=
  records.foldl (exportStep types setonly) []

/-- The export-mode scan loop with a termination signal arriving at item
boundary `k`: the `SystemExit` raised by the signal handler is caught at
line 235 and the accumulator built so far is kept. -/
def scanExportGo (types : List String) (setonly : Bool) :
    Snapshot → List (String × List (String × String)) → Nat → Snapshot
  | acc, _, 0 => acc
  | acc, [], Nat.succ _ => acc
  | acc, r :: rs, Nat.succ k => scanExportGo types setonly (exportStep types setonly acc r) rs k

/-- The export-mode scan loop over enumerated items where an item may fail
with a caught per-item exception (`none`), lines 217-221: a failing item
contributes nothing and the loop continues. -/
def scanExportRobust (types : List String) (setonly : Bool)
    (items : List (Option (String × List (String × String)))) : Snapshot :=
  items.foldl
    (fun jd it =>
      match it with
      | none => jd
      | some r => exportStep types setonly jd r) []

/-- A backend invocation: `gio set path metadata::field value`,
`gio set -t unset path metadata::field`, or
`gio set -t stringv path metadata::field v1 v2 ...`. -/
inductive GioCall where
  | set : String → String → String → GioCall
  | setUnset : String → String → GioCall
  | setStringv : String → String → List String → GioCall
deriving DecidableEq

/-- Per-item clear/purge state: the backend calls issued so far,
`metadata_found` and `no_clearing_failures`. -/
structure ClearState where
  calls : List GioCall
  found : Bool
  noFailures : Bool
deriving DecidableEq

/-- Lines 150-197 of `scan_metadata` (`clear` truthy): process one
`(field, raw value)` metadata line.  Clear mode resets a non-`'[]'`
emblems value to the literal `'[]'` and any other non-blank value to the
blank string; purge mode unsets every recognized field except annotation,
which is reset to blank only when non-blank.  A failing set call (per the
oracle `ok`) flips `no_clearing_failures`. -/
def clearFieldStep (ok : GioCall → Bool) (purge : Bool) (types : List String)
    (item_path : String) (st : ClearState) (field raw : String) : ClearState :=
  if field ∈ types then
    if purge = false then
      if field = "emblems" then
        if raw ≠ "[]" then
          ClearState.mk (st.calls ++ [GioCall.set item_path "emblems" "[]"]) true
            (st.noFailures && ok (GioCall.set item_path "emblems" "[]"))
        else st
      else
        if raw ≠ "" then
          ClearState.mk (st.calls ++ [GioCall.set item_path field ""]) true
            (st.noFailures && ok (GioCall.set item_path field ""))
        else st
    else
      if field = "annotation" then
        if raw ≠ "" then
          ClearState.mk (st.calls ++ [GioCall.set item_path "annotation" ""]) true
            (st.noFailures && ok (GioCall.set item_path "annotation" ""))
        else st
      else
        ClearState.mk (st.calls ++ [GioCall.setUnset item_path field]) true
          (st.noFailures && ok (GioCall.setUnset item_path field))
  else st

/-- All clear/purge processing for one item's metadata lines, starting
from `metadata_found = False`, `no_clearing_failures = True` (lines
110-111). -/
def clearItem (ok : GioCall → Bool) (purge : Bool) (types : List String)
    (item_path : String) (lines : List (String × String)) : ClearState :=
  lines.foldl (fun st l => clearFieldStep ok purge types item_path st l.1 l.2)
    (ClearState.mk [] false true)

/-- A metadata line that triggers a set call in clear mode: a recognized
field whose value is non-empty (`'[]'` counts as empty for emblems, the
blank string for every other field). -/
def clearNeeded (types : List String) (l : String × String) : Bool :=
  decide (l.1 ∈ types) &&
    (if l.1 = "emblems" then decide (l.2 ≠ "[]") else decide (l.2 ≠ ""))

/-- The backend call (if any) that clear/purge processing issues for one
metadata line, read off the branches of lines 150-197: clear mode resets
a non-`'[]'` emblems value to `'[]'` and any other non-blank value to
blank; purge mode writes blank for a non-blank annotation and unsets
every other recognized field unconditionally. -/
def lineCall (purge : Bool) (types : List String) (p : String)
    (l : String × String) : Option GioCall :=
  if l.1 ∈ types then
    if purge = false then
      if l.1 = "emblems" then
        if l.2 ≠ "[]" then some (GioCall.set p "emblems" "[]") else none
      else
        if l.2 ≠ "" then some (GioCall.set p l.1 "") else none
    else
      if l.1 = "annotation" then
        if l.2 ≠ "" then some (GioCall.set p "annotation" "") else none
      else some (GioCall.setUnset p l.1)
  else none

/-- Scan-level clear/purge counters, `items_found` and `items_cleared`
(lines 211-215), plus all backend calls issued. -/
structure ScanClearTotals where
  itemsFound : Nat
  itemsCleared : Nat
  calls : List GioCall
deriving DecidableEq

/-- One enumerated item in a clear/purge scan: `none` lines means the
item's processing raised a caught per-item exception (lines 217-221) and
the counters are untouched. -/
def scanClearStep (ok : GioCall → Bool) (purge : Bool) (types : List String)
    (t : ScanClearTotals) (item : String × Option (List (String × String))) : ScanClearTotals :=
  match item.2 with
  | none => t
  | some lines =>
    let st := clearItem ok purge types item.1 lines
    ScanClearTotals.mk (t.itemsFound + (if st.found = true then 1 else 0))
      (t.itemsCleared + (if st.noFailures = true then 1 else 0)) (t.calls ++ st.calls)

/-- A full clear/purge scan over enumerated items. -/
def scanClear (ok : GioCall → Bool) (purge : Bool) (types : List String)
    (items : List (String × Option (List (String × String)))) : ScanClearTotals :=
  items.foldl (scanClearStep ok purge types) (ScanClearTotals.mk 0 0 [])

/-- Lines 289-303 of `import_metadata`: the backend call issued for one
snapshot field.  An empty emblems value is written as the literal string
`'[]'`, a non-empty one as a typed stringv set; other fields are written
directly.  `none` models the `TypeError` raised while building the
command when a non-emblems field maps to a list (caught at line 307, no
call reaches the backend). -/
def importFieldCall (path field : String) (v : MetaValue) : Option GioCall :=
  if field = "emblems" then
    match v with
    | MetaValue.list xs =>
      if xs.length = 0 then some (GioCall.set path "emblems" "[]")
      else some (GioCall.setStringv path "emblems" xs)
    | MetaValue.str s =>
      if s.length = 0 then some (GioCall.set path "emblems" "[]")
      else some (GioCall.setStringv path "emblems" (s.data.map (fun c => String.mk [c])))
  else
    match v with
    | MetaValue.str s => some (GioCall.set path field s)
    | MetaValue.list _ => none

/-- Per-field import step: accumulate the issued call and and-in its
success; a field that fails before reaching the backend just flips
`no_import_failures`. -/
def importItemStep (ok : GioCall → Bool) (path : String)
    (st : List GioCall × Bool) (fv : String × MetaValue) : List GioCall × Bool :=
  match importFieldCall path fv.1 fv.2 with
  | some c => (st.1 ++ [c], st.2 && ok c)
  | none => (st.1, false)

/-- All fields of one snapshot entry applied to one existing path,
starting from `no_import_failures = True` (line 284). -/
def importItem (ok : GioCall → Bool) (path : String) (fields : FieldMap) :
    List GioCall × Bool :=
  fields.foldl (importItemStep ok path) ([], true)

/-- Lines 283-312 of `import_metadata`: apply every snapshot entry whose
path exists on disk; `processed_items` counts the entries all of whose
field sets succeeded. -/
def importRun (ok : GioCall → Bool) (pathOnDisk : String → Bool)
    (entries : Snapshot) : List GioCall × Nat :=
  entries.foldl
    (fun acc e =>
      if pathOnDisk e.1 = true then
        let r := importItem ok e.1 e.2
        (acc.1 ++ r.1, acc.2 + (if r.2 = true then 1 else 0))
      else acc)
    ([], 0)

/-- The JSON values a snapshot file is made of. -/
inductive Json where
  | str : String → Json
  | arr : List Json → Json
  | obj : List (String × Json) → Json

section SortDict

variable {α : Type}

/-- Insert one pair into a key-sorted association list. -/
def insertByKey (e : String × α) : List (String × α) → List (String × α)
  | [] => [e]
  | f :: fs => if e.1 ≤ f.1 then e :: f :: fs else f :: insertByKey e fs

/-- Stable sort of an association list by key, modelling the
`sort_keys=True` ordering `json.dumps` applies to every object. -/
def sortByKey : List (String × α) → List (String × α)
  | [] => []
  | e :: es => insertByKey e (sortByKey es)

end SortDict

/-- The snapshot with both levels of keys sorted, which is exactly the
object ordering `json.dumps(json_data, sort_keys=True, ...)` emits at
line 249. -/
def canonSnapshot (S : Snapshot) : Snapshot :=
  sortByKey (S.map (fun pm => (pm.1, sortByKey pm.2)))

/-- A metadata value as serialized into the snapshot file. -/
def encodeValue : MetaValue → Json
  | MetaValue.str s => Json.str s
  | MetaValue.list xs => Json.arr (xs.map Json.str)

/-- `json.dumps(json_data, sort_keys=True, ...)` at the JSON-value level:
the byte-level rendering and re-reading of this value is the Python
`json` library, an external collaborator that is faithful at this level. -/
def encode (S : Snapshot) : Json :=
  Json.obj ((canonSnapshot S).map
    (fun pm => (pm.1, Json.obj (pm.2.map (fun kv => (kv.1, encodeValue kv.2))))))

/-- Decode a JSON array of strings into a tag list. -/
def decodeTagList : List Json → Option (List String)
  | [] => some []
  | Json.str s :: rest => (decodeTagList rest).map (fun xs => s :: xs)
  | Json.arr _ :: _ => none
  | Json.obj _ :: _ => none

/-- Decode one snapshot field value. -/
def decodeValue : Json → Option MetaValue
  | Json.str s => some (MetaValue.str s)
  | Json.arr es => (decodeTagList es).map MetaValue.list
  | Json.obj _ => none

/-- Decode one snapshot entry's field object, preserving textual order
exactly as `json.loads` builds its dicts. -/
def decodeFields : List (String × Json) → Option FieldMap
  | [] => some []
  | kj :: rest =>
    match decodeValue kj.2, decodeFields rest with
    | some v, some m => some ((kj.1, v) :: m)
    | _, _ => none

/-- Decode the top-level snapshot object. -/
def decodeTop : List (String × Json) → Option Snapshot
  | [] => some []
  | pj :: rest =>
    match pj.2 with
    | Json.obj fs =>
      match decodeFields fs, decodeTop rest with
      | some m, some s => some ((pj.1, m) :: s)
      | _, _ => none
    | Json.str _ => none
    | Json.arr _ => none

/-- `json.loads` of a snapshot file plus the shape the import loop
requires: a top-level object of objects whose values are strings or
arrays of strings. -/
def decode : Json → Option Snapshot
  | Json.obj entries => decodeTop entries
  | Json.str _ => none
  | Json.arr _ => none

/-- A well-formed metadata dictionary: unique path keys and unique field
keys per item, as is automatic for Python dicts. -/
def validSnapshot (S : Snapshot) : Prop :=
  (S.map Prod.fst).Nodup ∧ ∀ pm ∈ S, ((pm.2).map Prod.fst).Nodup

instance (S : Snapshot) : Decidable (validSnapshot S) := by
  unfold validSnapshot
  infer_instance

/-- Two field maps are equal up to key ordering. -/
def fieldMapEquiv (a b : FieldMap) : Prop :=
  List.Perm (a.map Prod.fst) (b.map Prod.fst) ∧ ∀ f, lookupKey f a = lookupKey f b

/-- Equality up to ordering lifted to optional field maps. -/
def optionFieldEquiv : Option FieldMap → Option FieldMap → Prop
  | none, none => True
  | some a, some b => fieldMapEquiv a b
  | _, _ => False

/-- Two snapshots are equal up to path-key and field-key ordering:
the same path keys as a permutation, and order-independently equal field
maps under every path. -/
def snapshotEquiv (A B : Snapshot) : Prop :=
  List.Perm (A.map Prod.fst) (B.map Prod.fst) ∧
    ∀ p, optionFieldEquiv (lookupKey p A) (lookupKey p B)

/-- Lines 248-255: the snapshot file is written only when the export
dictionary is non-empty, and then holds its sorted JSON rendering. -/
def writeSnapshot (jd : Snapshot) : Option Json :=
  if 0 < jd.length then some (encode jd) else none

/-- A directory tree: name, plain files, subdirectories. -/
inductive FSTree where
  | node : String → List String → List FSTree → FSTree

/-- The directory's own name. -/
def FSTree.name : FSTree → String
  | FSTree.node n _ _ => n

/-- `os.path.join` for the paths built by `path_crawler`. -/
def pathJoin (a b : String) : String := a ++ "/" ++ b

mutual

/-- `os.walk` (top-down): the root triple
`(dirpath, dirnames, filenames)` followed by the walk of every
subdirectory. -/
def osWalk (base : String) : FSTree → List (String × List String × List String)
  | FSTree.node _ files subdirs =>
    (base, subdirs.map FSTree.name, files) :: osWalkList base subdirs

/-- Walk a list of sibling subdirectories. -/
def osWalkList (base : String) : List FSTree → List (String × List String × List String)
  | [] => []
  | t :: ts => osWalk (pathJoin base t.name) t ++ osWalkList base ts

end

/-- The two supported type-filter values (line 30). -/
def TYPE_FILTERS : List String := ["file", "folder"]

/-- Python truthiness of an optional string (`None` and `''` are falsy). -/
def pyTruthyOpt : Option String → Bool
  | none => false
  | some s => !(s == "")

/-- Lines 48-53 of `path_crawler`: one `os.walk` triple appends the
joined file paths when the filter is falsy or `'file'`, then the joined
directory paths when the filter is falsy or `'folder'`. -/
def crawlStep (tf : Option String) (acc : List String)
    (tr : String × List String × List String) : List String :=
  let acc1 :=
    if pyTruthyOpt tf = false ∨ tf = some "file" then
      acc ++ (tr.2.2).map (pathJoin tr.1)
    else acc
  if pyTruthyOpt tf = false ∨ tf = some "folder" then
    acc1 ++ (tr.2.1).map (pathJoin tr.1)
  else acc1

/-- Lines 55-56: without `recurse` the walk loop breaks after its first
iteration, so only the root triple is considered. -/
def walkConsidered (base : String) (t : FSTree) (recurse : Bool) :
    List (String × List String × List String) :=
  if recurse then osWalk base t else (osWalk base t).take 1

/-- `path_crawler(base_path, type_filter, recurse)` over an explicit
directory tree. -/
def path_crawler (base : String) (t : FSTree) (tf : Option String)
    (recurse : Bool) : List String :=
  (walkConsidered base t recurse).foldl (crawlStep tf) []

/-- Lines 360-363: an unsupported truthy type-filter value is replaced by
`None` with a warning (the Bool component); a falsy value (`None` or the
empty string) is left untouched and unwarned. -/
def typeFilterNormalize (t : Option String) : Option String × Bool :=
  match t with
  | none => (none, false)
  | some s => if ¬ (s = "") ∧ s ∉ TYPE_FILTERS then (none, true) else (some s, false)

/-- The parsed command-line arguments relevant to the dispatch block.
Exactly one of `exportMode` / `clearMode` / import (the remaining case)
is selected, as enforced by the mutually exclusive argparse group. -/
structure Args where
  source : String
  destination : String
  exportMode : Bool
  clearMode : Bool
  recursive : Bool
  setonly : Bool
  purge : Bool
  typeF : Option String

/-- The process environment consulted by the dispatch block:
`os.path.isdir`, `os.path.isfile`,
`os.path.dirname(os.path.abspath(...))` for the export destination, the
confirmation prompt answer, and whether `json.loads` succeeds on the
snapshot file's content. -/
structure Env where
  isDir : String → Bool
  isFile : String → Bool
  dirnameAbsDest : String → String
  promptAnswer : String
  snapshotParses : Bool

/-- How an invocation ends: `SystemExit(n)`, entering `scan_metadata`
(with the normalized type filter and the purge/clear flags), entering
the apply loop of `import_metadata`, or falling off the end of the
script (process status 0). -/
inductive MainOutcome where
  | exit : Nat → MainOutcome
  | runScan : Option String → Bool → Bool → MainOutcome
  | runImport : MainOutcome
  | finishedNormally : MainOutcome
deriving DecidableEq

/-- Lines 360-398 (plus lines 270-276 for the `SystemExit(5)` raised on
malformed snapshot JSON before any backend call): the dispatch of one
invocation. -/
def mainDispatch (a : Args) (env : Env) : MainOutcome :=
  let tf := (typeFilterNormalize a.typeF).1
  if a.exportMode = true then
    if env.isDir a.source = true then
      if env.isDir (env.dirnameAbsDest a.destination) = true then
        MainOutcome.runScan tf false false
      else MainOutcome.exit 2
    else MainOutcome.exit 1
  else if a.clearMode = true then
    if env.isDir a.source = true then
      if pyUpper env.promptAnswer = "Y" then MainOutcome.runScan tf a.purge true
      else MainOutcome.finishedNormally
    else MainOutcome.exit 3
  else
    if env.isFile a.source = true then
      if env.snapshotParses = true then MainOutcome.runImport
      else MainOutcome.exit 5
    else MainOutcome.exit 4

/-- The process exit status of an outcome (`SystemExit(n)` exits with
`n`; every other outcome lets the script finish with status 0). -/
def exitCodeOf : MainOutcome → Nat
  | MainOutcome.exit n => n
  | MainOutcome.runScan _ _ _ => 0
  | MainOutcome.runImport => 0
  | MainOutcome.finishedNormally => 0

/-- Whether an outcome reaches code that issues backend calls. -/
def backendReached : MainOutcome → Bool
  | MainOutcome.runScan _ _ _ => true
  | MainOutcome.runImport => true
  | MainOutcome.exit _ => false
  | MainOutcome.finishedNormally => false

/-- A metadata line whose value is empty in the export-mode sense:
an emblems value normalizing to the empty list, or a blank scalar. -/
def fieldValueEmpty (l : String × String) : Prop :=
  if l.1 = "emblems" then parseEmblems l.2 = [] else l.2 = ""

/-! ### Helper lemmas -/

section DictLemmas

variable {α : Type}

theorem lookupKey_append_some {k : String} {d : List (String × α)} {v : α}
    (e : List (String × α)) (h : lookupKey k d = some v) :
    lookupKey k (d ++ e) = some v := by
  induction d with
  | nil => simp [lookupKey] at h
  | cons kv rest ih =>
    by_cases hk : k = kv.1
    · simp [lookupKey, hk] at h ⊢
      exact h
    · simp [lookupKey, hk] at h ⊢
      exact ih h

theorem lookupKey_append_none {k : String} {d : List (String × α)}
    (e : List (String × α)) (h : lookupKey k d = none) :
    lookupKey k (d ++ e) = lookupKey k e := by
  induction d with
  | nil => simp [lookupKey]
  | cons kv rest ih =>
    by_cases hk : k = kv.1
    · simp [lookupKey, hk] at h
    · simp [lookupKey, hk] at h ⊢
      exact ih h

theorem lookupKey_map_ne {k f : String} (hkf : k ≠ f) (v : α)
    (d : List (String × α)) :
    lookupKey k (d.map (fun kv => if kv.1 = f then (f, v) else kv)) = lookupKey k d := by
  induction d with
  | nil => simp [lookupKey]
  | cons kv rest ih =>
    by_cases hf : kv.1 = f
    · have hk : k ≠ kv.1 := by rw [hf]; exact hkf
      simp [lookupKey, hf, hk, hkf, ih]
    · by_cases hk : k = kv.1
      · simp [lookupKey, hf, hk]
      · simp [lookupKey, hf, hk, ih]

theorem lookupKey_map_self {f : String} (v : α) {d : List (String × α)}
    (h : (lookupKey f d).isSome = true) :
    lookupKey f (d.map (fun kv => if kv.1 = f then (f, v) else kv)) = some v := by
  induction d with
  | nil => simp [lookupKey] at h
  | cons kv rest ih =>
    by_cases hf : kv.1 = f
    · simp [lookupKey, hf]
    · have hk : f ≠ kv.1 := fun he => hf he.symm
      simp [lookupKey, hf, hk] at h ⊢
      exact ih h

theorem lookupKey_dictUpdate (d : List (String × α)) (f k : String) (v : α) :
    lookupKey k (dictUpdate d f v) = if k = f then some v else lookupKey k d := by
  unfold dictUpdate
  by_cases hs : (lookupKey f d).isSome = true
  · simp only [hs, if_true]
    by_cases hk : k = f
    · subst hk
      simp [lookupKey_map_self v hs]
    · simp [lookupKey_map_ne hk, hk]
  · have hs' : (lookupKey f d).isSome = false := by
      cases h : (lookupKey f d).isSome with
      | false => rfl
      | true => exact absurd h hs
    simp only [hs', Bool.false_eq_true, if_false]
    by_cases hk : k = f
    · subst hk
      have hn : lookupKey k d = none := by
        cases h : lookupKey k d with
        | none => rfl
        | some w => rw [h] at hs; simp at hs
      rw [lookupKey_append_none _ hn]
      simp [lookupKey]
    · cases h : lookupKey k d with
      | none =>
        rw [lookupKey_append_none _ h]
        simp [lookupKey, hk, h]
      | some w =>
        rw [lookupKey_append_some _ h]
        simp [hk]

theorem mem_dictUpdate {e : String × α} {d : List (String × α)} {f : String} {v : α}
    (h : e ∈ dictUpdate d f v) : e = (f, v) ∨ e ∈ d := by
  unfold dictUpdate at h
  by_cases hs : (lookupKey f d).isSome = true
  · simp only [hs, if_true, List.mem_map] at h
    obtain ⟨kv, hkv, he⟩ := h
    by_cases hf : kv.1 = f
    · simp [hf] at he
      exact Or.inl he.symm
    · simp [hf] at he
      exact Or.inr (he ▸ hkv)
  · have hs' : (lookupKey f d).isSome = false := by
      cases hq : (lookupKey f d).isSome with
      | false => rfl
      | true => exact absurd hq hs
    simp only [hs', Bool.false_eq_true, if_false, List.mem_append, List.mem_singleton] at h
    cases h with
    | inl h => exact Or.inr h
    | inr h => exact Or.inl h

end DictLemmas

theorem foldl_step_invariant {β γ : Type} (g : γ → β → γ) (P : γ → Prop)
    (h : ∀ acc b, P acc → P (g acc b)) :
    ∀ (l : List β) (init : γ), P init → P (l.foldl g init) := by
  intro l
  induction l with
  | nil => intro init h0; simpa using h0
  | cons b bs ih => intro init h0; exact ih _ (h _ _ h0)

theorem parseEmblems_ne (raw : String) : parseEmblems raw ≠ [""] := by
  have key : ∀ (v : List String),
      (if v.length = 1 ∧ v.getD 0 "" = "" then ([] : List String) else v) ≠ [""] := by
    intro v
    by_cases hc : v.length = 1 ∧ v.getD 0 "" = ""
    · rw [if_pos hc]
      simp
    · simp only [hc, if_false]
      intro he
      exact hc (by simp [he])
  simpa [parseEmblems] using key (splitCommaSpace (pySlice11 raw))

theorem exportFieldStep_cases (types : List String) (setonly : Bool)
    (d : FieldMap) (field raw : String) :
    exportFieldStep types setonly d field raw = d ∨
      (field ∈ types ∧
        ¬(setonly = true ∧
            ((field ≠ "annotation" ∧
                isEmptyStr (if field = "emblems" then MetaValue.list (parseEmblems raw)
                  else MetaValue.str raw) = true) ∨
              (field = "emblems" ∧
                pyLen (if field = "emblems" then MetaValue.list (parseEmblems raw)
                  else MetaValue.str raw) = 0))) ∧
        ¬(field = "annotation" ∧
            isEmptyStr (if field = "emblems" then MetaValue.list (parseEmblems raw)
              else MetaValue.str raw) = true) ∧
        exportFieldStep types setonly d field raw =
          dictUpdate d field
            (if field = "emblems" then MetaValue.list (parseEmblems raw)
             else MetaValue.str raw)) := by
  simp only [exportFieldStep]
  split_ifs <;>
    first
      | exact Or.inl rfl
      | exact Or.inr
          (And.intro (by assumption)
            (And.intro (by assumption) (And.intro (by assumption) rfl)))

/-- C1: in export mode, an emblems value whose bracket-stripped,
comma-split content is a single empty string normalizes to the empty list
and is stored as the empty list in the item's field map; moreover no field
map produced by export processing ever maps `emblems` to a one-element
list containing the empty string. -/
theorem emblems_empty_norm (types : List String) (lines : List (String × String))
    (setonly : Bool) (raw : String)
    (hmem : "emblems" ∈ types)
    (hraw : splitCommaSpace (pySlice11 raw) = [""]) :
    parseEmblems raw = [] ∧
      exportItem types false [("emblems", raw)] = [("emblems", MetaValue.list [])] ∧
      ∀ v, lookupKey "emblems" (exportItem types setonly lines) = some v →
        v ≠ MetaValue.list [""] := by
  have hp : parseEmblems raw = [] := by simp [parseEmblems, hraw]
  have hne : ¬(("emblems" : String) = "annotation") := by decide
  refine ⟨hp, ?_, ?_⟩
  · simp only [exportItem, List.foldl]
    simp [exportFieldStep, hmem, hp, hne, dictUpdate, lookupKey]
  · have hinv : ∀ v, lookupKey "emblems" (exportItem types setonly lines) = some v →
        ∃ r, v = MetaValue.list (parseEmblems r) := by
      refine foldl_step_invariant _
        (fun d => ∀ v, lookupKey "emblems" d = some v →
          ∃ r, v = MetaValue.list (parseEmblems r)) ?_ lines [] ?_
      · intro d l hP v hv
        cases exportFieldStep_cases types setonly d l.1 l.2 with
        | inl he => rw [he] at hv; exact hP v hv
        | inr hr =>
          rw [hr.2.2.2, lookupKey_dictUpdate] at hv
          by_cases hk : "emblems" = l.1
          · rw [if_pos hk] at hv
            rw [if_pos hk.symm] at hv
            exact ⟨l.2, (Option.some_injective _ hv).symm⟩
          · rw [if_neg hk] at hv
            exact hP v hv
      · intro v hv
        simp [lookupKey] at hv
    intro v hv
    obtain ⟨r, hr⟩ := hinv v hv
    rw [hr]
    intro hcontra
    have : parseEmblems r = [""] := by
      injection hcontra
    exact parseEmblems_ne r this

/-- Closed witness for `emblems_empty_norm` at the raw backend value
`'[]'`. -/
theorem emblems_empty_norm_witness :
    ("emblems" ∈ (["emblems"] : List String)) ∧
      splitCommaSpace (pySlice11 "[]") = [""] ∧
      (parseEmblems "[]" = [] ∧
        exportItem ["emblems"] false [("emblems", "[]")] = [("emblems", MetaValue.list [])] ∧
        ∀ v, lookupKey "emblems" (exportItem ["emblems"] false [("emblems", "[]")]) = some v →
          v ≠ MetaValue.list [""]) :=
  ⟨by decide, by decide,
    emblems_empty_norm ["emblems"] [("emblems", "[]")] false "[]" (by decide) (by decide)⟩

theorem exportFieldStep_empty (types : List String) (field raw : String)
    (hmem : field ∈ types → fieldValueEmpty (field, raw)) :
    exportFieldStep types true [] field raw = [] := by
  by_cases hm : field ∈ types
  · have he := hmem hm
    unfold fieldValueEmpty at he
    by_cases hf : field = "emblems"
    · rw [if_pos hf] at he
      subst hf
      simp [exportFieldStep, hm, he, isEmptyStr, pyLen]
    · rw [if_neg hf] at he
      subst he
      by_cases ha : field = "annotation"
      · subst ha
        simp [exportFieldStep, isEmptyStr]
      · simp [exportFieldStep, hm, hf, ha, isEmptyStr]
  · simp [exportFieldStep, hm]

theorem exportItem_all_empty (types : List String) :
    ∀ (lines : List (String × String)),
      (∀ l ∈ lines, l.1 ∈ types → fieldValueEmpty l) → exportItem types true lines = [] := by
  intro lines
  induction lines with
  | nil => intro _; rfl
  | cons l ls ih =>
    intro h
    have hstep : exportFieldStep types true [] l.1 l.2 = [] :=
      exportFieldStep_empty types l.1 l.2 (fun hm => h l (List.mem_cons_self l ls) hm)
    have : exportItem types true (l :: ls) = exportItem types true ls := by
      simp only [exportItem, List.foldl, hstep]
    rw [this]
    exact ih (fun x hx hm => h x (List.mem_cons_of_mem l hx) hm)

theorem exportItem_setonly_no_empty (types : List String)
    (lines : List (String × String)) :
    ∀ f v, lookupKey f (exportItem types true lines) = some v →
      v ≠ MetaValue.str "" ∧ v ≠ MetaValue.list [] := by
  refine foldl_step_invariant _
    (fun (d : FieldMap) => ∀ f v, lookupKey f d = some v →
      v ≠ MetaValue.str "" ∧ v ≠ MetaValue.list []) ?_ lines [] ?_
  · intro d l hP f v hv
    cases exportFieldStep_cases types true d l.1 l.2 with
    | inl he => rw [he] at hv; exact hP f v hv
    | inr hr =>
      rw [hr.2.2.2, lookupKey_dictUpdate] at hv
      by_cases hk : f = l.1
      · rw [if_pos hk] at hv
        have hmv := (Option.some_injective _ hv).symm
        rw [hmv]
        by_cases hf : l.1 = "emblems"
        · rw [if_pos hf]
          constructor
          · intro hc
            exact MetaValue.noConfusion hc
          · intro hc
            injection hc with hnil
            apply hr.2.1
            refine ⟨rfl, Or.inr ⟨hf, ?_⟩⟩
            rw [if_pos hf]
            simp [pyLen, hnil]
        · rw [if_neg hf]
          constructor
          · intro hc
            injection hc with hraw
            by_cases ha : l.1 = "annotation"
            · apply hr.2.2.1
              refine ⟨ha, ?_⟩
              rw [if_neg hf]
              simp [isEmptyStr, hraw]
            · apply hr.2.1
              refine ⟨rfl, Or.inl ⟨ha, ?_⟩⟩
              rw [if_neg hf]
              simp [isEmptyStr, hraw]
          · intro hc
            exact MetaValue.noConfusion hc
      · rw [if_neg hk] at hv
        exact hP f v hv
  · intro f v hv
    simp [lookupKey] at hv

/-- C4: a blank annotation value never appears in an item's exported field
map (with or without `setonly`); with `setonly` no field with an empty
value (blank scalar or empty tag-list) ever appears in any item's field
map, even alongside non-empty fields; an item all of whose recognized
metadata lines carry empty values exports an empty field map; and every
entry of a `setonly` export dictionary has a non-empty field map. -/
theorem export_empty_exclusion (types : List String) (setonly : Bool)
    (lines : List (String × String))
    (records : List (String × List (String × String))) :
    lookupKey "annotation" (exportItem types setonly lines) ≠ some (MetaValue.str "") ∧
      (∀ f v, lookupKey f (exportItem types true lines) = some v →
        v ≠ MetaValue.str "" ∧ v ≠ MetaValue.list []) ∧
      ((∀ l ∈ lines, l.1 ∈ types → fieldValueEmpty l) → exportItem types true lines = []) ∧
      (∀ e ∈ scanExportData types true records, e.2 ≠ ([] : FieldMap)) := by
  refine ⟨?_, exportItem_setonly_no_empty types lines, exportItem_all_empty types lines, ?_⟩
  · have hinv : lookupKey "annotation" (exportItem types setonly lines) ≠
        some (MetaValue.str "") := by
      refine foldl_step_invariant _
        (fun d => lookupKey "annotation" d ≠ some (MetaValue.str "")) ?_ lines [] ?_
      · intro d l hP
        cases exportFieldStep_cases types setonly d l.1 l.2 with
        | inl he => rw [he]; exact hP
        | inr hr =>
          rw [hr.2.2.2, lookupKey_dictUpdate]
          by_cases hk : "annotation" = l.1
          · rw [if_pos hk]
            intro hcontra
            have hmv := Option.some_injective _ hcontra
            exact hr.2.2.1 ⟨hk.symm, by rw [hmv]; rfl⟩
          · rw [if_neg hk]
            exact hP
      · simp [lookupKey]
    exact hinv
  · refine foldl_step_invariant _
      (fun (jd : Snapshot) => ∀ e ∈ jd, e.2 ≠ ([] : FieldMap)) ?_ records [] ?_
    · intro jd r hP e he
      simp only [exportStep] at he
      split_ifs at he with hlen
      · cases mem_dictUpdate he with
        | inl heq =>
          rw [heq]
          intro hc
          simp only [] at hc
          rw [hc] at hlen
          simp at hlen
        | inr hmem => exact hP e hmem
      · exact hP e he
    · intro e he
      simp at he

/-- Closed witness for `export_empty_exclusion` at a mixed item carrying
a set emblems value next to a blank annotation and a cleared emblems
line. -/
theorem export_empty_exclusion_witness :
    lookupKey "annotation"
        (exportItem ["emblems", "annotation"] true
          [("emblems", "[red]"), ("annotation", ""), ("emblems", "[]")]) ≠
        some (MetaValue.str "") ∧
      (∀ f v, lookupKey f (exportItem ["emblems", "annotation"] true
          [("emblems", "[red]"), ("annotation", ""), ("emblems", "[]")]) = some v →
        v ≠ MetaValue.str "" ∧ v ≠ MetaValue.list []) ∧
      ((∀ l ∈ [("emblems", "[red]"), ("annotation", ""), ("emblems", "[]")],
          l.1 ∈ ["emblems", "annotation"] → fieldValueEmpty l) →
        exportItem ["emblems", "annotation"] true
          [("emblems", "[red]"), ("annotation", ""), ("emblems", "[]")] = []) ∧
      (∀ e ∈ scanExportData ["emblems", "annotation"] true
          [("/a", [("emblems", "[]"), ("annotation", "")]), ("/b", [("emblems", "[x]")])],
        e.2 ≠ ([] : FieldMap)) :=
  export_empty_exclusion ["emblems", "annotation"] true
    [("emblems", "[red]"), ("annotation", ""), ("emblems", "[]")]
    [("/a", [("emblems", "[]"), ("annotation", "")]), ("/b", [("emblems", "[x]")])]

theorem clearFieldStep_eq (ok : GioCall → Bool) (purge : Bool) (types : List String)
    (p : String) (st : ClearState) (l : String × String) :
    clearFieldStep ok purge types p st l.1 l.2 =
      match lineCall purge types p l with
      | none => st
      | some c => ClearState.mk (st.calls ++ [c]) true (st.noFailures && ok c) := by
  simp only [clearFieldStep, lineCall]
  split_ifs <;> rfl

theorem clearFold_eq (ok : GioCall → Bool) (purge : Bool) (types : List String) (p : String) :
    ∀ (lines : List (String × String)) (st : ClearState),
      lines.foldl (fun st l => clearFieldStep ok purge types p st l.1 l.2) st =
        ClearState.mk (st.calls ++ lines.filterMap (lineCall purge types p))
          (st.found || lines.any (fun l => (lineCall purge types p l).isSome))
          (st.noFailures && (lines.filterMap (lineCall purge types p)).all ok) := by
  intro lines
  induction lines with
  | nil => intro st; cases st; simp
  | cons l ls ih =>
    intro st
    simp only [List.foldl]
    rw [clearFieldStep_eq]
    cases hc : lineCall purge types p l with
    | none =>
      rw [ih st]
      simp [List.filterMap_cons, hc]
    | some c =>
      rw [ih (ClearState.mk (st.calls ++ [c]) true (st.noFailures && ok c))]
      simp [List.filterMap_cons, hc, Bool.and_assoc]

theorem clearItem_spec (ok : GioCall → Bool) (purge : Bool) (types : List String)
    (p : String) (lines : List (String × String)) :
    (clearItem ok purge types p lines).calls = lines.filterMap (lineCall purge types p) ∧
      (clearItem ok purge types p lines).found =
        lines.any (fun l => (lineCall purge types p l).isSome) ∧
      (clearItem ok purge types p lines).noFailures =
        (lines.filterMap (lineCall purge types p)).all ok := by
  unfold clearItem
  rw [clearFold_eq]
  simp

theorem length_filterMap_eq_length_filter {α β : Type} (f : α → Option β) :
    ∀ (l : List α), (l.filterMap f).length = (l.filter (fun x => (f x).isSome)).length := by
  intro l
  induction l with
  | nil => rfl
  | cons a as ih =>
    cases h : f a with
    | none => simp [List.filterMap_cons, List.filter_cons, h, ih]
    | some b => simp [List.filterMap_cons, List.filter_cons, h, ih]

theorem lineCall_isSome_clear (types : List String) (p : String) (l : String × String) :
    (lineCall false types p l).isSome = clearNeeded types l := by
  unfold lineCall clearNeeded
  by_cases h1 : l.1 ∈ types
  · by_cases h2 : l.1 = "emblems"
    · rw [h2] at h1
      by_cases h3 : l.2 = "[]"
      · simp [h1, h2, h3]
      · simp [h1, h2, h3]
    · by_cases h3 : l.2 = ""
      · simp [h1, h2, h3]
      · simp [h1, h2, h3]
  · simp [h1]

/-- C2: in clear mode an item whose record carries `N` recognized
non-empty metadata lines triggers exactly `N` backend set calls,
`metadata_found` holds iff `N ≥ 1`, `no_clearing_failures` holds iff all
issued calls succeed, and at scan level the item increments `items_found`
exactly when `N ≥ 1` and `items_cleared` exactly when every issued call
succeeds. -/
theorem clear_mode_counts (ok : GioCall → Bool) (types : List String) (p : String)
    (lines : List (String × String))
    (rs : List (String × Option (List (String × String)))) :
    (clearItem ok false types p lines).calls.length =
        (lines.filter (clearNeeded types)).length ∧
      ((clearItem ok false types p lines).found = true ↔
        1 ≤ (lines.filter (clearNeeded types)).length) ∧
      ((clearItem ok false types p lines).noFailures = true ↔
        ∀ c ∈ (clearItem ok false types p lines).calls, ok c = true) ∧
      (scanClear ok false types (rs ++ [(p, some lines)])).itemsFound =
        (scanClear ok false types rs).itemsFound +
          (if 1 ≤ (lines.filter (clearNeeded types)).length then 1 else 0) ∧
      (scanClear ok false types (rs ++ [(p, some lines)])).itemsCleared =
        (scanClear ok false types rs).itemsCleared +
          (if ∀ c ∈ (clearItem ok false types p lines).calls, ok c = true then 1 else 0) := by
  obtain ⟨hcalls, hfound, hfail⟩ := clearItem_spec ok false types p lines
  have hfilter : lines.filter (fun l => (lineCall false types p l).isSome) =
      lines.filter (clearNeeded types) := by
    apply List.filter_congr
    intro x _
    exact lineCall_isSome_clear types p x
  have hlen : (clearItem ok false types p lines).calls.length =
      (lines.filter (clearNeeded types)).length := by
    rw [hcalls, length_filterMap_eq_length_filter, hfilter]
  have hfound_iff : (clearItem ok false types p lines).found = true ↔
      1 ≤ (lines.filter (clearNeeded types)).length := by
    rw [hfound, List.any_eq_true]
    constructor
    · rintro ⟨x, hx, hsome⟩
      have hx' : x ∈ lines.filter (clearNeeded types) := by
        rw [List.mem_filter]
        exact ⟨hx, by rw [← lineCall_isSome_clear types p x]; exact hsome⟩
      have : lines.filter (clearNeeded types) ≠ [] := by
        intro hnil
        rw [hnil] at hx'
        simp at hx'
      exact List.length_pos.mpr this
    · intro hlen1
      have hne : lines.filter (clearNeeded types) ≠ [] := by
        intro hnil
        rw [hnil] at hlen1
        simp at hlen1
      rw [Ne, List.filter_eq_nil_iff] at hne
      push_neg at hne
      obtain ⟨x, hx, hp⟩ := hne
      exact ⟨x, hx, by rw [lineCall_isSome_clear types p x]; exact hp⟩
  have hfail_iff : (clearItem ok false types p lines).noFailures = true ↔
      ∀ c ∈ (clearItem ok false types p lines).calls, ok c = true := by
    rw [hfail, List.all_eq_true, ← hcalls]
  refine ⟨hlen, hfound_iff, hfail_iff, ?_, ?_⟩
  · unfold scanClear
    rw [List.foldl_append]
    simp only [List.foldl, scanClearStep]
    rw [if_congr hfound_iff rfl rfl]
  · unfold scanClear
    rw [List.foldl_append]
    simp only [List.foldl, scanClearStep]
    rw [if_congr hfail_iff rfl rfl]

/-- Closed witness for `clear_mode_counts`: one item with a set emblems
value and a cleared one, onto a one-item scan prefix. -/
theorem clear_mode_counts_witness :
    (clearItem (fun _ => true) false ["emblems"] "/p"
          [("emblems", "[a]"), ("emblems", "[]")]).calls.length =
        ([("emblems", "[a]"), ("emblems", "[]")].filter (clearNeeded ["emblems"])).length ∧
      ((clearItem (fun _ => true) false ["emblems"] "/p"
          [("emblems", "[a]"), ("emblems", "[]")]).found = true ↔
        1 ≤ ([("emblems", "[a]"), ("emblems", "[]")].filter (clearNeeded ["emblems"])).length) ∧
      ((clearItem (fun _ => true) false ["emblems"] "/p"
          [("emblems", "[a]"), ("emblems", "[]")]).noFailures = true ↔
        ∀ c ∈ (clearItem (fun _ => true) false ["emblems"] "/p"
          [("emblems", "[a]"), ("emblems", "[]")]).calls, (fun _ => true) c = true) ∧
      (scanClear (fun _ => true) false ["emblems"]
          ([("/q", some [("emblems", "[b]")])] ++
            [("/p", some [("emblems", "[a]"), ("emblems", "[]")])])).itemsFound =
        (scanClear (fun _ => true) false ["emblems"]
            [("/q", some [("emblems", "[b]")])]).itemsFound +
          (if 1 ≤ ([("emblems", "[a]"), ("emblems", "[]")].filter
              (clearNeeded ["emblems"])).length then 1 else 0) ∧
      (scanClear (fun _ => true) false ["emblems"]
          ([("/q", some [("emblems", "[b]")])] ++
            [("/p", some [("emblems", "[a]"), ("emblems", "[]")])])).itemsCleared =
        (scanClear (fun _ => true) false ["emblems"]
            [("/q", some [("emblems", "[b]")])]).itemsCleared +
          (if ∀ c ∈ (clearItem (fun _ => true) false ["emblems"] "/p"
              [("emblems", "[a]"), ("emblems", "[]")]).calls,
            (fun _ => true) c = true then 1 else 0) :=
  clear_mode_counts (fun _ => true) ["emblems"] "/p"
    [("emblems", "[a]"), ("emblems", "[]")] [("/q", some [("emblems", "[b]")])]

theorem lineCall_purge_shape (types : List String) (p : String) (l : String × String)
    (c : GioCall) (h : lineCall true types p l = some c) :
    (c = GioCall.setUnset p l.1 ∧ l.1 ≠ "annotation" ∧ l.1 ∈ types) ∨
      (c = GioCall.set p "annotation" "" ∧ l.1 = "annotation" ∧ l.2 ≠ "" ∧ l.1 ∈ types) := by
  simp only [lineCall] at h
  rw [if_neg (show ¬((true : Bool) = false) by decide)] at h
  by_cases h1 : l.1 ∈ types
  · rw [if_pos h1] at h
    by_cases h3 : l.1 = "annotation"
    · rw [if_pos h3] at h
      by_cases h4 : l.2 ≠ ""
      · rw [if_pos h4] at h
        exact Or.inr ⟨(Option.some_injective _ h).symm, h3, h4, h1⟩
      · rw [if_neg h4] at h
        exact absurd h (by simp)
    · rw [if_neg h3] at h
      exact Or.inl ⟨(Option.some_injective _ h).symm, h3, h1⟩
  · rw [if_neg h1] at h
    exact absurd h (by simp)

/-- C3: in purge mode every backend call for an item is either an
unset-typed call on a non-annotation field or a blank write to the
annotation field; no plain set call ever targets the emblems field; every
recognized non-annotation line (emblems included) yields its unset call;
and the annotation blank write happens only for a non-blank annotation
value. -/
theorem purge_unset_policy (ok : GioCall → Bool) (types : List String) (p : String)
    (lines : List (String × String)) :
    (∀ c ∈ (clearItem ok true types p lines).calls, ∀ v, c ≠ GioCall.set p "emblems" v) ∧
      (∀ c ∈ (clearItem ok true types p lines).calls,
        (∃ f, c = GioCall.setUnset p f ∧ f ≠ "annotation") ∨
          c = GioCall.set p "annotation" "") ∧
      (∀ l ∈ lines, l.1 ∈ types → l.1 ≠ "annotation" →
        GioCall.setUnset p l.1 ∈ (clearItem ok true types p lines).calls) ∧
      (GioCall.set p "annotation" "" ∈ (clearItem ok true types p lines).calls →
        ∃ l ∈ lines, l.1 = "annotation" ∧ l.2 ≠ "") := by
  obtain ⟨hcalls, _, _⟩ := clearItem_spec ok true types p lines
  have hshape : ∀ c ∈ (clearItem ok true types p lines).calls,
      (∃ f, c = GioCall.setUnset p f ∧ f ≠ "annotation") ∨
        c = GioCall.set p "annotation" "" := by
    intro c hc
    rw [hcalls, List.mem_filterMap] at hc
    obtain ⟨l, _, hsome⟩ := hc
    cases lineCall_purge_shape types p l c hsome with
    | inl hu => exact Or.inl ⟨l.1, hu.1, hu.2.1⟩
    | inr ha => exact Or.inr ha.1
  refine ⟨?_, hshape, ?_, ?_⟩
  · intro c hc v
    cases hshape c hc with
    | inl hu =>
      obtain ⟨f, hf, _⟩ := hu
      rw [hf]
      intro hcontra
      exact GioCall.noConfusion hcontra
    | inr ha =>
      rw [ha]
      intro hcontra
      have : ("annotation" : String) = "emblems" := by
        injection hcontra with _ h2 _
      exact absurd this (by decide)
  · intro l hl hmem hann
    rw [hcalls, List.mem_filterMap]
    refine ⟨l, hl, ?_⟩
    simp [lineCall, hmem, hann]
  · intro hmem
    rw [hcalls, List.mem_filterMap] at hmem
    obtain ⟨l, hl, hsome⟩ := hmem
    cases lineCall_purge_shape types p l _ hsome with
    | inl hu =>
      exact absurd hu.1 (fun hcontra => GioCall.noConfusion hcontra)
    | inr ha => exact ⟨l, hl, ha.2.1, ha.2.2.1⟩

/-- Closed witness for `purge_unset_policy` on an item carrying an
already-cleared emblems value and a non-blank annotation. -/
theorem purge_unset_policy_witness :
    (∀ c ∈ (clearItem (fun _ => true) true ["emblems", "annotation"] "/p"
          [("emblems", "[]"), ("annotation", "note")]).calls,
        ∀ v, c ≠ GioCall.set "/p" "emblems" v) ∧
      (∀ c ∈ (clearItem (fun _ => true) true ["emblems", "annotation"] "/p"
          [("emblems", "[]"), ("annotation", "note")]).calls,
        (∃ f, c = GioCall.setUnset "/p" f ∧ f ≠ "annotation") ∨
          c = GioCall.set "/p" "annotation" "") ∧
      (∀ l ∈ [("emblems", "[]"), ("annotation", "note")],
        l.1 ∈ ["emblems", "annotation"] → l.1 ≠ "annotation" →
          GioCall.setUnset "/p" l.1 ∈ (clearItem (fun _ => true) true
            ["emblems", "annotation"] "/p"
            [("emblems", "[]"), ("annotation", "note")]).calls) ∧
      (GioCall.set "/p" "annotation" "" ∈ (clearItem (fun _ => true) true
          ["emblems", "annotation"] "/p"
          [("emblems", "[]"), ("annotation", "note")]).calls →
        ∃ l ∈ [("emblems", "[]"), ("annotation", "note")],
          l.1 = "annotation" ∧ l.2 ≠ "") :=
  purge_unset_policy (fun _ => true) ["emblems", "annotation"] "/p"
    [("emblems", "[]"), ("annotation", "note")]

theorem importFold_calls (ok : GioCall → Bool) (p : String) :
    ∀ (fields : FieldMap) (st : List GioCall × Bool),
      (fields.foldl (importItemStep ok p) st).1 =
        st.1 ++ fields.filterMap (fun fv => importFieldCall p fv.1 fv.2) := by
  intro fields
  induction fields with
  | nil => intro st; simp
  | cons fv fs ih =>
    intro st
    simp only [List.foldl]
    cases hc : importFieldCall p fv.1 fv.2 with
    | none =>
      simp only [importItemStep, hc]
      rw [ih]
      simp [List.filterMap_cons, hc]
    | some c =>
      simp only [importItemStep, hc]
      rw [ih]
      simp [List.filterMap_cons, hc]

/-- C5: a snapshot entry mapping an existing path's emblems field to the
empty array yields exactly one backend call, the plain write of the
literal `'[]'` value (not an unset, not a no-op), and when that is the
item's only field and the call succeeds the item counts as succeeded. -/
theorem import_empty_list_write (ok : GioCall → Bool) (pathOnDisk : String → Bool)
    (p : String) (hdisk : pathOnDisk p = true)
    (hok : ok (GioCall.set p "emblems" "[]") = true) :
    importFieldCall p "emblems" (MetaValue.list []) =
        some (GioCall.set p "emblems" "[]") ∧
      (∀ fields : FieldMap, (importItem ok p fields).1 =
        fields.filterMap (fun fv => importFieldCall p fv.1 fv.2)) ∧
      importRun ok pathOnDisk [(p, [("emblems", MetaValue.list [])])] =
        ([GioCall.set p "emblems" "[]"], 1) := by
  refine ⟨by simp [importFieldCall], ?_, ?_⟩
  · intro fields
    unfold importItem
    rw [importFold_calls]
    simp
  · simp [importRun, importItem, importItemStep, importFieldCall, hdisk, hok, List.foldl]

/-- Closed witness for `import_empty_list_write` at the spec's scenario
`{"/tmp/a.txt": {"emblems": []}}`. -/
theorem import_empty_list_write_witness :
    (fun _ => true : String → Bool) "/tmp/a.txt" = true ∧
      (fun _ => true : GioCall → Bool) (GioCall.set "/tmp/a.txt" "emblems" "[]") = true ∧
      (importFieldCall "/tmp/a.txt" "emblems" (MetaValue.list []) =
          some (GioCall.set "/tmp/a.txt" "emblems" "[]") ∧
        (∀ fields : FieldMap, (importItem (fun _ => true) "/tmp/a.txt" fields).1 =
          fields.filterMap (fun fv => importFieldCall "/tmp/a.txt" fv.1 fv.2)) ∧
        importRun (fun _ => true) (fun _ => true)
            [("/tmp/a.txt", [("emblems", MetaValue.list [])])] =
          ([GioCall.set "/tmp/a.txt" "emblems" "[]"], 1)) :=
  ⟨rfl, rfl,
    import_empty_list_write (fun _ => true) (fun _ => true) "/tmp/a.txt" rfl rfl⟩

/-- C8: a per-item exception (backend query failure, malformed record
line, or a failure escaping one item's processing) is absorbed by the
per-item handler: the scan's result over a list with one failing item is
the scan's result with that item removed, in both export and clear/purge
mode, so a single failing item neither aborts the run nor disturbs any
other item's contribution or counters. -/
theorem per_item_failure_isolation (types : List String) (setonly : Bool)
    (ok : GioCall → Bool) (purge : Bool) (ctypes : List String) (q : String)
    (pre post : List (Option (String × List (String × String))))
    (pre2 post2 : List (String × Option (List (String × String)))) :
    scanExportRobust types setonly (pre ++ none :: post) =
        scanExportRobust types setonly (pre ++ post) ∧
      scanClear ok purge ctypes (pre2 ++ (q, none) :: post2) =
        scanClear ok purge ctypes (pre2 ++ post2) := by
  constructor
  · unfold scanExportRobust
    rw [List.foldl_append, List.foldl_append]
    rfl
  · unfold scanClear
    rw [List.foldl_append, List.foldl_append]
    rfl

theorem scanExportGo_eq_take (types : List String) (setonly : Bool) :
    ∀ (records : List (String × List (String × String))) (k : Nat) (acc : Snapshot),
      scanExportGo types setonly acc records k =
        (records.take k).foldl (exportStep types setonly) acc := by
  intro records
  induction records with
  | nil => intro k acc; cases k <;> rfl
  | cons r rs ih =>
    intro k acc
    cases k with
    | zero => rfl
    | succ k =>
      simp only [scanExportGo, List.take, List.foldl]
      exact ih k _

/-- C7 counterexample: an interrupt before any item accumulated leaves the
export dictionary empty, and then no snapshot at all is written (the
`len(json_data) > 0` guard at line 248), contrary to the claim that a
snapshot holding exactly the accumulated entries is always written. -/
theorem interrupted_export_empty_cex :
    scanExportGo ["emblems"] false [] [("/a", [("emblems", "[red]")])] 0 = [] ∧
      writeSnapshot (scanExportGo ["emblems"] false [] [("/a", [("emblems", "[red]")])] 0) =
        none :=
  ⟨rfl, rfl⟩

/-- C7 as amended: an interrupt at item boundary `k` leaves exactly the
accumulation over the processed prefix, and whenever that accumulation is
non-empty the snapshot written is exactly its encoding — no accumulated
entry is discarded; with an empty accumulation nothing is written. -/
theorem interrupted_export_prefix (types : List String) (setonly : Bool)
    (records : List (String × List (String × String))) (k : Nat)
    (h : 0 < (scanExportData types setonly (records.take k)).length) :
    scanExportGo types setonly [] records k =
        scanExportData types setonly (records.take k) ∧
      writeSnapshot (scanExportGo types setonly [] records k) =
        some (encode (scanExportData types setonly (records.take k))) := by
  have he : scanExportGo types setonly [] records k =
      scanExportData types setonly (records.take k) := by
    rw [scanExportGo_eq_take]
    rfl
  refine ⟨he, ?_⟩
  rw [he]
  unfold writeSnapshot
  rw [if_pos h]

/-- Closed witness for `interrupted_export_prefix`: one item processed
before the signal. -/
theorem interrupted_export_prefix_witness :
    0 < (scanExportData ["emblems"] false
        ([("/a", [("emblems", "[red]")])].take 1)).length ∧
      (scanExportGo ["emblems"] false [] [("/a", [("emblems", "[red]")])] 1 =
          scanExportData ["emblems"] false ([("/a", [("emblems", "[red]")])].take 1) ∧
        writeSnapshot (scanExportGo ["emblems"] false [] [("/a", [("emblems", "[red]")])] 1) =
          some (encode (scanExportData ["emblems"] false
            ([("/a", [("emblems", "[red]")])].take 1)))) :=
  ⟨by decide, interrupted_export_prefix ["emblems"] false
    [("/a", [("emblems", "[red]")])] 1 (by decide)⟩

theorem foldl_fun_eq {β γ : Type} {f g : γ → β → γ}
    (h : ∀ acc b, f acc b = g acc b) :
    ∀ (l : List β) (init : γ), l.foldl f init = l.foldl g init := by
  intro l
  induction l with
  | nil => intro init; rfl
  | cons b bs ih =>
    intro init
    simp only [List.foldl]
    rw [h init b]
    exact ih _

theorem crawlStep_empty_eq_none (acc : List String)
    (tr : String × List String × List String) :
    crawlStep (some "") acc tr = crawlStep none acc tr := by
  simp [crawlStep, pyTruthyOpt]

theorem crawlStep_none_eq (acc : List String)
    (tr : String × List String × List String) :
    crawlStep none acc tr =
      acc ++ ((tr.2.2).map (pathJoin tr.1) ++ (tr.2.1).map (pathJoin tr.1)) := by
  simp [crawlStep, pyTruthyOpt, List.append_assoc]

theorem mem_foldl_append {β : Type} (g : β → List String) :
    ∀ (l : List β) (init : List String) (x : String),
      (x ∈ init ∨ ∃ b ∈ l, x ∈ g b) →
        x ∈ l.foldl (fun acc b => acc ++ g b) init := by
  intro l
  induction l with
  | nil =>
    intro init x hx
    cases hx with
    | inl h => exact h
    | inr h => obtain ⟨b, hb, _⟩ := h; simp at hb
  | cons b bs ih =>
    intro init x hx
    simp only [List.foldl]
    apply ih
    cases hx with
    | inl h => exact Or.inl (List.mem_append.mpr (Or.inl h))
    | inr h =>
      obtain ⟨b', hb', hxg⟩ := h
      cases List.mem_cons.mp hb' with
      | inl heq => exact Or.inl (List.mem_append.mpr (Or.inr (heq ▸ hxg)))
      | inr hmem => exact Or.inr ⟨b', hmem, hxg⟩

/-- C10 counterexample: the empty string is not a supported type-filter
value, yet it is neither replaced by `None` nor warned about (Python
truthiness at line 361 skips it), so "every unsupported value is replaced
by no filter with a warning" fails at the value `''`. -/
theorem empty_type_filter_not_replaced :
    typeFilterNormalize (some "") = (some "", false) ∧
      ¬((typeFilterNormalize (some "")).1 = none ∧ (typeFilterNormalize (some "")).2 = true) ∧
      "" ∉ TYPE_FILTERS := by
  refine ⟨by decide, ?_, by decide⟩
  intro h
  have := h.1
  revert this
  decide

/-- C10 as amended: any unsupported non-empty type-filter value is
replaced by no filter with a warning; the unsupported empty value is kept
but behaves identically to no filter in `path_crawler`; in both cases the
scan enumerates every file and every folder of the considered walk, and
clear/purge mode receives the normalized filter through the dispatch. -/
theorem type_filter_fallback (t : String) (ht : t ∉ TYPE_FILTERS) :
    (t ≠ "" → typeFilterNormalize (some t) = (none, true)) ∧
      (∀ (base : String) (tree : FSTree) (r : Bool),
        path_crawler base tree ((typeFilterNormalize (some t)).1) r =
          path_crawler base tree none r) ∧
      (∀ (base : String) (tree : FSTree) (r : Bool)
          (tr : String × List String × List String),
        tr ∈ walkConsidered base tree r →
          (∀ f ∈ tr.2.2, pathJoin tr.1 f ∈ path_crawler base tree none r) ∧
          (∀ d ∈ tr.2.1, pathJoin tr.1 d ∈ path_crawler base tree none r)) ∧
      (∀ (a : Args) (env : Env), a.exportMode = false → a.clearMode = true →
        env.isDir a.source = true → pyUpper env.promptAnswer = "Y" → a.typeF = some t →
          mainDispatch a env =
            MainOutcome.runScan ((typeFilterNormalize (some t)).1) a.purge true) := by
  refine ⟨?_, ?_, ?_, ?_⟩
  · intro hne
    simp [typeFilterNormalize, hne, ht]
  · intro base tree r
    by_cases he : t = ""
    · subst he
      have h1 : (typeFilterNormalize (some "")).1 = some "" := by decide
      rw [h1]
      unfold path_crawler
      exact foldl_fun_eq crawlStep_empty_eq_none _ []
    · have h1 : (typeFilterNormalize (some t)).1 = none := by
        simp [typeFilterNormalize, he, ht]
      rw [h1]
  · intro base tree r tr htr
    have hcrawl : path_crawler base tree none r =
        (walkConsidered base tree r).foldl
          (fun acc b => acc ++ ((b.2.2).map (pathJoin b.1) ++ (b.2.1).map (pathJoin b.1))) [] := by
      unfold path_crawler
      exact foldl_fun_eq (fun acc b => crawlStep_none_eq acc b) _ []
    constructor
    · intro f hf
      rw [hcrawl]
      apply mem_foldl_append
      exact Or.inr ⟨tr, htr, List.mem_append.mpr (Or.inl (List.mem_map_of_mem _ hf))⟩
    · intro d hd
      rw [hcrawl]
      apply mem_foldl_append
      exact Or.inr ⟨tr, htr, List.mem_append.mpr (Or.inr (List.mem_map_of_mem _ hd))⟩
  · intro a env h1 h2 h3 h4 h5
    simp [mainDispatch, h1, h2, h3, h4, h5]

/-- Closed witness for `type_filter_fallback` at the unsupported value
`'x'`. -/
theorem type_filter_fallback_witness :
    "x" ∉ TYPE_FILTERS ∧
      (("x" ≠ "" → typeFilterNormalize (some "x") = (none, true)) ∧
        (∀ (base : String) (tree : FSTree) (r : Bool),
          path_crawler base tree ((typeFilterNormalize (some "x")).1) r =
            path_crawler base tree none r) ∧
        (∀ (base : String) (tree : FSTree) (r : Bool)
            (tr : String × List String × List String),
          tr ∈ walkConsidered base tree r →
            (∀ f ∈ tr.2.2, pathJoin tr.1 f ∈ path_crawler base tree none r) ∧
            (∀ d ∈ tr.2.1, pathJoin tr.1 d ∈ path_crawler base tree none r)) ∧
        (∀ (a : Args) (env : Env), a.exportMode = false → a.clearMode = true →
          env.isDir a.source = true → pyUpper env.promptAnswer = "Y" →
            a.typeF = some "x" →
            mainDispatch a env =
              MainOutcome.runScan ((typeFilterNormalize (some "x")).1) a.purge true)) :=
  ⟨by decide, type_filter_fallback "x" (by decide)⟩

/-- C9 counterexample: declining the clear-mode confirmation prompt does
not raise any `SystemExit`; the script logs and falls off the end, so the
process terminates with status 0 rather than a distinct nonzero code. -/
theorem decline_confirmation_exit_zero :
    mainDispatch (Args.mk "/d" "" false true false false false none)
        (Env.mk (fun _ => true) (fun _ => true) (fun s => s) "n" true) =
      MainOutcome.finishedNormally ∧
      exitCodeOf (mainDispatch (Args.mk "/d" "" false true false false false none)
        (Env.mk (fun _ => true) (fun _ => true) (fun s => s) "n" true)) = 0 :=
  ⟨rfl, rfl⟩

/-- C9 as amended: each file-system or snapshot failure kind gets its own
distinct nonzero `SystemExit` code (1 invalid export source, 2 invalid
export destination, 3 invalid clearing directory, 4 invalid snapshot
file, 5 malformed snapshot JSON), all raised before any backend call is
reached; declining the clear confirmation also stops before any backend
call but terminates normally with process status 0, not a nonzero code. -/
theorem exit_code_mapping (a : Args) (env : Env) :
    (a.exportMode = true → env.isDir a.source = false →
        mainDispatch a env = MainOutcome.exit 1) ∧
      (a.exportMode = true → env.isDir a.source = true →
        env.isDir (env.dirnameAbsDest a.destination) = false →
          mainDispatch a env = MainOutcome.exit 2) ∧
      (a.exportMode = false → a.clearMode = true → env.isDir a.source = false →
        mainDispatch a env = MainOutcome.exit 3) ∧
      (a.exportMode = false → a.clearMode = false → env.isFile a.source = false →
        mainDispatch a env = MainOutcome.exit 4) ∧
      (a.exportMode = false → a.clearMode = false → env.isFile a.source = true →
        env.snapshotParses = false → mainDispatch a env = MainOutcome.exit 5) ∧
      (a.exportMode = false → a.clearMode = true → env.isDir a.source = true →
        pyUpper env.promptAnswer ≠ "Y" →
          mainDispatch a env = MainOutcome.finishedNormally ∧
            exitCodeOf (mainDispatch a env) = 0) ∧
      (∀ n, mainDispatch a env = MainOutcome.exit n →
        backendReached (mainDispatch a env) = false) ∧
      ([1, 2, 3, 4, 5] : List Nat).Nodup ∧
      (∀ n ∈ ([1, 2, 3, 4, 5] : List Nat), n ≠ 0) := by
  refine ⟨?_, ?_, ?_, ?_, ?_, ?_, ?_, by decide, by decide⟩
  · intro h1 h2
    simp [mainDispatch, h1, h2]
  · intro h1 h2 h3
    simp [mainDispatch, h1, h2, h3]
  · intro h1 h2 h3
    simp [mainDispatch, h1, h2, h3]
  · intro h1 h2 h3
    simp [mainDispatch, h1, h2, h3]
  · intro h1 h2 h3 h4
    simp [mainDispatch, h1, h2, h3, h4]
  · intro h1 h2 h3 h4
    have hd : mainDispatch a env = MainOutcome.finishedNormally := by
      simp [mainDispatch, h1, h2, h3, h4]
    exact ⟨hd, by rw [hd]; rfl⟩
  · intro n hn
    rw [hn]
    rfl

/-- Closed witness for `exit_code_mapping`: export mode with a missing
source directory exits with code 1. -/
theorem exit_code_mapping_witness :
    mainDispatch (Args.mk "/s" "/dest.json" true false false false false none)
        (Env.mk (fun _ => false) (fun _ => false) (fun s => s) "" false) =
      MainOutcome.exit 1 :=
  (exit_code_mapping (Args.mk "/s" "/dest.json" true false false false false none)
      (Env.mk (fun _ => false) (fun _ => false) (fun s => s) "" false)).1 rfl rfl

section CodecLemmas

variable {α β : Type}

theorem insertByKey_perm (e : String × α) :
    ∀ l : List (String × α), List.Perm (insertByKey e l) (e :: l) := by
  intro l
  induction l with
  | nil => exact List.Perm.refl _
  | cons f fs ih =>
    unfold insertByKey
    by_cases h : e.1 ≤ f.1
    · rw [if_pos h]
    · rw [if_neg h]
      exact (ih.cons f).trans (List.Perm.swap e f fs)

theorem sortByKey_perm : ∀ l : List (String × α), List.Perm (sortByKey l) l := by
  intro l
  induction l with
  | nil => exact List.Perm.refl _
  | cons e es ih =>
    unfold sortByKey
    exact (insertByKey_perm e (sortByKey es)).trans (ih.cons e)

theorem keys_map_snd (g : α → β) :
    ∀ l : List (String × α),
      (l.map (fun pm => (pm.1, g pm.2))).map Prod.fst = l.map Prod.fst := by
  intro l
  induction l with
  | nil => rfl
  | cons x xs ih => simp [ih]

theorem lookupKey_map_snd (g : α → β) (k : String) :
    ∀ l : List (String × α),
      lookupKey k (l.map (fun pm => (pm.1, g pm.2))) = (lookupKey k l).map g := by
  intro l
  induction l with
  | nil => rfl
  | cons x xs ih =>
    simp only [List.map_cons, lookupKey]
    by_cases h : k = x.1
    · simp [h]
    · simp [h, ih]

theorem lookupKey_eq_of_perm (k : String) {l₁ l₂ : List (String × α)}
    (h : List.Perm l₁ l₂) :
    (l₁.map Prod.fst).Nodup → lookupKey k l₁ = lookupKey k l₂ := by
  induction h with
  | nil => intro _; rfl
  | cons x h ih =>
    intro hnd
    simp only [List.map_cons, List.nodup_cons] at hnd
    simp only [lookupKey]
    by_cases hk : k = x.1
    · rw [if_pos hk, if_pos hk]
    · rw [if_neg hk, if_neg hk]
      exact ih hnd.2
  | swap x y l =>
    intro hnd
    have hxy : y.1 ≠ x.1 := by
      simp only [List.map_cons, List.nodup_cons] at hnd
      exact fun he => hnd.1 (by rw [he]; exact List.mem_cons_self _ _)
    simp only [lookupKey]
    by_cases hky : k = y.1
    · have hkx : ¬k = x.1 := fun he => hxy (hky ▸ he)
      rw [if_pos hky, if_neg hkx, if_pos hky]
    · by_cases hkx : k = x.1
      · rw [if_neg hky, if_pos hkx, if_pos hkx]
      · rw [if_neg hky, if_neg hkx, if_neg hkx, if_neg hky]
  | trans h1 h2 ih1 ih2 =>
    intro hnd
    rw [ih1 hnd]
    exact ih2 ((h1.map Prod.fst).nodup hnd)

theorem lookupKey_some_mem {k : String} {v : α} :
    ∀ {l : List (String × α)}, lookupKey k l = some v → (k, v) ∈ l := by
  intro l
  induction l with
  | nil => intro h; simp [lookupKey] at h
  | cons x xs ih =>
    intro h
    simp only [lookupKey] at h
    by_cases hk : k = x.1
    · rw [if_pos hk] at h
      have hv := Option.some_injective _ h
      exact List.mem_cons.mpr (Or.inl (by rw [hk, ← hv]))
    · rw [if_neg hk] at h
      exact List.mem_cons.mpr (Or.inr (ih h))

end CodecLemmas

theorem decodeTagList_map : ∀ xs : List String,
    decodeTagList (xs.map Json.str) = some xs := by
  intro xs
  induction xs with
  | nil => rfl
  | cons x t ih => simp [decodeTagList, ih]

theorem decodeValue_encodeValue : ∀ v : MetaValue,
    decodeValue (encodeValue v) = some v := by
  intro v
  cases v with
  | str s => rfl
  | list xs => simp [encodeValue, decodeValue, decodeTagList_map]

theorem decodeFields_enc : ∀ m : FieldMap,
    decodeFields (m.map (fun kv => (kv.1, encodeValue kv.2))) = some m := by
  intro m
  induction m with
  | nil => rfl
  | cons kv rest ih => simp [decodeFields, decodeValue_encodeValue, ih]

theorem decodeTop_enc : ∀ L : Snapshot,
    decodeTop (L.map
      (fun pm => (pm.1, Json.obj (pm.2.map (fun kv => (kv.1, encodeValue kv.2)))))) =
      some L := by
  intro L
  induction L with
  | nil => rfl
  | cons pm rest ih => simp [decodeTop, decodeFields_enc, ih]

theorem decode_encode (S : Snapshot) : decode (encode S) = some (canonSnapshot S) := by
  unfold encode decode
  exact decodeTop_enc (canonSnapshot S)

theorem snapshotEquiv_canon (S : Snapshot)
    (h1 : (S.map Prod.fst).Nodup)
    (h2 : ∀ pm ∈ S, ((pm.2).map Prod.fst).Nodup) :
    snapshotEquiv (canonSnapshot S) S := by
  have hSkeys : (S.map (fun pm => (pm.1, sortByKey pm.2))).map Prod.fst = S.map Prod.fst :=
    keys_map_snd _ S
  have hperm : List.Perm (canonSnapshot S) (S.map (fun pm => (pm.1, sortByKey pm.2))) :=
    sortByKey_perm _
  have hnd' : ((S.map (fun pm => (pm.1, sortByKey pm.2))).map Prod.fst).Nodup := by
    rw [hSkeys]
    exact h1
  constructor
  · have hk := hperm.map Prod.fst
    rw [hSkeys] at hk
    exact hk
  · intro p
    have hl : lookupKey p (canonSnapshot S) =
        lookupKey p (S.map (fun pm => (pm.1, sortByKey pm.2))) := by
      apply lookupKey_eq_of_perm p hperm
      exact (hperm.map Prod.fst).symm.nodup hnd'
    rw [hl, lookupKey_map_snd]
    cases hS : lookupKey p S with
    | none => simp [optionFieldEquiv]
    | some m =>
      have hmnd : (m.map Prod.fst).Nodup := h2 (p, m) (lookupKey_some_mem hS)
      refine ⟨(sortByKey_perm m).map Prod.fst, ?_⟩
      intro f
      apply lookupKey_eq_of_perm f (sortByKey_perm m)
      exact ((sortByKey_perm m).map Prod.fst).symm.nodup hmnd

/-- C6: for every valid metadata dictionary (unique path keys, unique
field keys) decoding the sorted JSON encoding succeeds and yields a
dictionary equal to the original up to path-key and field-key ordering. -/
theorem encode_decode_roundtrip (S : Snapshot)
    (h1 : (S.map Prod.fst).Nodup)
    (h2 : ∀ pm ∈ S, ((pm.2).map Prod.fst).Nodup) :
    ∃ T, decode (encode S) = some T ∧ snapshotEquiv T S :=
  ⟨canonSnapshot S, decode_encode S, snapshotEquiv_canon S h1 h2⟩

/-- Closed witness for `encode_decode_roundtrip` on a two-item snapshot
whose keys are deliberately unsorted. -/
theorem encode_decode_roundtrip_witness :
    ((([("/tmp/b", [("annotation", MetaValue.str "x")]),
        ("/tmp/a", [("emblems", MetaValue.list ["red", "blue"]),
          ("annotation", MetaValue.str "y")])] : Snapshot).map Prod.fst).Nodup) ∧
      (∀ pm ∈ ([("/tmp/b", [("annotation", MetaValue.str "x")]),
          ("/tmp/a", [("emblems", MetaValue.list ["red", "blue"]),
            ("annotation", MetaValue.str "y")])] : Snapshot),
        ((pm.2).map Prod.fst).Nodup) ∧
      (∃ T, decode (encode ([("/tmp/b", [("annotation", MetaValue.str "x")]),
          ("/tmp/a", [("emblems", MetaValue.list ["red", "blue"]),
            ("annotation", MetaValue.str "y")])] : Snapshot)) = some T ∧
        snapshotEquiv T ([("/tmp/b", [("annotation", MetaValue.str "x")]),
          ("/tmp/a", [("emblems", MetaValue.list ["red", "blue"]),
            ("annotation", MetaValue.str "y")])] : Snapshot)) :=
  ⟨by decide, by decide,
    encode_decode_roundtrip _ (by decide) (by decide)⟩

end EmblemExporter
